import Mathlib

/-!
# Verification of the intro-tamer core against its specification

Shallow embedding of the algorithmic core of the `intro_tamer` repository:

* the gain/fade volume curve built by `render_video`
  (`src/intro_tamer/ffmpeg_render.py`, lines 177-191);
* the fingerprint detector's sliding-window search, thresholding and
  boundary construction (`src/intro_tamer/intro_detect/fingerprint.py`,
  `FingerprintDetector.detect` and `_compute_similarity`);
* the heuristic loudness-jump detector
  (`src/intro_tamer/intro_detect/heuristic.py`, `HeuristicDetector.detect`
  and `_measure_short_term_loudness`).

Python floats are modelled as rationals (`ℚ`), except for the cosine
similarity scorer whose Euclidean norms require `Real.sqrt` and are
modelled over `ℝ`.  Times, gains and scores are exact arithmetic; the
transcendental quantity `10 ** (gain_db / 20.0)` computed at
`ffmpeg_render.py:180` is carried as an explicit multiplier parameter
`g` (for `gain_db ≤ 0` it satisfies `0 < g ≤ 1`, for `gain_db < 0`
strictly `g < 1`).
-/

namespace IntroTamer

/-! ## Gain/fade volume curve (`ffmpeg_render.render_video`, lines 177-191)

`render_video` builds the ffmpeg volume expression

```
if(lt(t,intro_start),1,
 if(lt(t,fade_in_end),1+(gain_multiplier-1)*((t-intro_start)/fade_seconds),
  if(lt(t,fade_out_start),gain_multiplier,
   if(lt(t,intro_end),gain_multiplier+(1-gain_multiplier)*((t-fade_out_start)/fade_seconds),1))))
```

with `fade_in_end = intro_start + fade_seconds` and
`fade_out_start = intro_end - fade_seconds`.  `volumeExpr` is that
expression as a function of time.  Note that `RenderConfig`
(`ffmpeg_render.py:10-18`) has fields `intro_start`, `intro_end`,
`gain_db`, `fade_ms`, `audio_stream_index`, `all_audio_tracks` only:
there are no outro fields, and the expression above is the whole
filtergraph, so a single intro segment is all the renderer can express. -/

/-- The time-to-multiplier volume expression built by `render_video`.
`s` = `intro_start`, `e` = `intro_end`, `g` = `gain_multiplier`
(`10 ** (gain_db / 20.0)` in the source), `fade` = `fade_seconds`. -/
def volumeExpr (s e g fade t : ℚ) : ℚ :=
  if t < s then 1
  else if t < s + fade then 1 + (g - 1) * ((t - s) / fade)
  else if t < e - fade then g
  else if t < e then g + (1 - g) * ((t - (e - fade)) / fade)
  else 1

/-- ε-δ continuity of a rational-valued curve at a point, used to state
that the volume curve is (or is not) continuous in time. -/
def QContinuousAt (f : ℚ → ℚ) (x : ℚ) : Prop :=
  ∀ ε : ℚ, 0 < ε → ∃ δ : ℚ, 0 < δ ∧ ∀ y : ℚ, |y - x| < δ → |f y - f x| < ε

lemma volumeExpr_of_lt_start {s e g fade t : ℚ} (h : t < s) :
    volumeExpr s e g fade t = 1 := by
  unfold volumeExpr
  rw [if_pos h]

lemma volumeExpr_fadeIn {s e g fade t : ℚ} (hf : 0 < fade) (h2 : 2 * fade ≤ e - s)
    (h : s ≤ t) (h' : t ≤ s + fade) :
    volumeExpr s e g fade t = 1 + (g - 1) * ((t - s) / fade) := by
  unfold volumeExpr
  rw [if_neg (not_lt.2 h)]
  rcases lt_or_ge t (s + fade) with hc | hc
  · rw [if_pos hc]
  · have ht : t = s + fade := le_antisymm h' hc
    subst ht
    rw [if_neg (lt_irrefl _)]
    by_cases h3 : s + fade < e - fade
    · rw [if_pos h3]
      field_simp
    · rw [if_neg h3, if_pos (by linarith : s + fade < e)]
      have he : e - fade = s + fade := le_antisymm (not_lt.1 h3) (by linarith)
      rw [he]
      field_simp

lemma volumeExpr_steady {s e g fade t : ℚ} (hf : 0 < fade)
    (h : s + fade ≤ t) (h' : t ≤ e - fade) :
    volumeExpr s e g fade t = g := by
  unfold volumeExpr
  rw [if_neg (not_lt.2 (by linarith : s ≤ t)), if_neg (not_lt.2 h)]
  rcases lt_or_ge t (e - fade) with hc | hc
  · rw [if_pos hc]
  · have ht : t = e - fade := le_antisymm h' hc
    subst ht
    rw [if_neg (lt_irrefl _), if_pos (by linarith : e - fade < e)]
    simp

lemma volumeExpr_fadeOut {s e g fade t : ℚ} (hf : 0 < fade) (h2 : 2 * fade ≤ e - s)
    (h : e - fade ≤ t) (h' : t ≤ e) :
    volumeExpr s e g fade t = g + (1 - g) * ((t - (e - fade)) / fade) := by
  unfold volumeExpr
  rw [if_neg (not_lt.2 (by linarith : s ≤ t)),
    if_neg (not_lt.2 (by linarith : s + fade ≤ t)), if_neg (not_lt.2 h)]
  rcases lt_or_ge t e with hc | hc
  · rw [if_pos hc]
  · have ht : t = e := le_antisymm h' hc
    subst ht
    field_simp

lemma volumeExpr_of_gt_end {s e g fade t : ℚ} (hf : 0 ≤ fade) (h2 : 2 * fade ≤ e - s)
    (h : e < t) :
    volumeExpr s e g fade t = 1 := by
  unfold volumeExpr
  rw [if_neg (not_lt.2 (by linarith : s ≤ t)),
    if_neg (not_lt.2 (by linarith : s + fade ≤ t)),
    if_neg (not_lt.2 (by linarith : e - fade ≤ t)), if_neg (not_lt.2 h.le)]

/-- **C3.** For a segment `[s, e]` with `e - s ≥ 2·fade`, the
`render_video` volume curve is `1` strictly before `s` and strictly
after `e`, ramps linearly from `1` to the target multiplier `g`
(`10^(gainDb/20)` in the source) on `[s, s+fade]`, is constantly `g` on
`[s+fade, e-fade]`, and ramps linearly back to `1` on `[e-fade, e]`.
In particular, for every `fade ≥ 0` (still with `e - s ≥ 2·fade`) and
every `ε > 0` the curve is `1` at `s - ε` and at `e + ε`, for every
multiplier `g` — hence in particular for every `gainDb ≤ 0`. -/
theorem volumeExpr_piecewise (s e g : ℚ) :
    (∀ fade : ℚ, 0 < fade → 2 * fade ≤ e - s →
      (∀ t, t < s → volumeExpr s e g fade t = 1) ∧
      (∀ t, s ≤ t → t ≤ s + fade →
        volumeExpr s e g fade t = 1 + (g - 1) * ((t - s) / fade)) ∧
      (∀ t, s + fade ≤ t → t ≤ e - fade → volumeExpr s e g fade t = g) ∧
      (∀ t, e - fade ≤ t → t ≤ e →
        volumeExpr s e g fade t = g + (1 - g) * ((t - (e - fade)) / fade)) ∧
      (∀ t, e < t → volumeExpr s e g fade t = 1)) ∧
    (∀ fade : ℚ, 0 ≤ fade → 2 * fade ≤ e - s → ∀ ε : ℚ, 0 < ε →
      volumeExpr s e g fade (s - ε) = 1 ∧ volumeExpr s e g fade (e + ε) = 1) := by
  constructor
  · intro fade hf h2
    refine ⟨fun t ht => volumeExpr_of_lt_start ht,
      fun t h h' => volumeExpr_fadeIn hf h2 h h',
      fun t h h' => volumeExpr_steady hf h h',
      fun t h h' => volumeExpr_fadeOut hf h2 h h',
      fun t ht => volumeExpr_of_gt_end hf.le h2 ht⟩
  · intro fade hf h2 ε hε
    exact ⟨volumeExpr_of_lt_start (by linarith),
      volumeExpr_of_gt_end hf h2 (by linarith)⟩

/-- Closed instance of the piecewise description: segment `[0, 10]`,
multiplier `1/2`, fade `1`; the curve is `1/2` in the steady region at
`t = 5` and `1` past the segment at `t = 11`. -/
theorem volumeExpr_piecewise_witness :
    volumeExpr 0 10 (1/2) 1 5 = 1/2 ∧ volumeExpr 0 10 (1/2) 1 11 = 1 := by
  have h := volumeExpr_piecewise 0 10 (1/2)
  exact ⟨(h.1 1 (by norm_num) (by norm_num)).2.2.1 5 (by norm_num) (by norm_num),
    (h.1 1 (by norm_num) (by norm_num)).2.2.2.2 11 (by norm_num)⟩

/-- **C4.** With overlapping fades (`e - s < 2·fade`: segment `[0, 1]`,
fade `4/5`, multiplier `1/2`, i.e. a negative `gainDb`) the curve built
by `render_video` is *not* continuous: at `t = s + fade = 4/5` the
fade-in branch hands over to the fade-out branch with a jump from
values near `1/2` to `7/8`.  This refutes the claimed continuity (and
the claim that the ramps meet at the segment midpoint). -/
theorem volumeExpr_discontinuous_when_fades_overlap :
    ¬ QContinuousAt (fun t => volumeExpr 0 1 (1/2) (4/5) t) (4/5) := by
  intro h
  obtain ⟨δ, hδ, hball⟩ := h (1/4) (by norm_num)
  set d : ℚ := min (δ/2) (1/5) with hd
  have hd0 : 0 < d := lt_min (by linarith) (by norm_num)
  have hdle : d ≤ 1/5 := min_le_right _ _
  have hdlt : d < δ := lt_of_le_of_lt (min_le_left _ _) (by linarith)
  have hmem : |(4/5 - d : ℚ) - 4/5| < δ := by
    have hrw : (4/5 - d : ℚ) - 4/5 = -d := by ring
    rw [hrw, abs_neg, abs_of_pos hd0]
    exact hdlt
  have h1 := hball (4/5 - d) hmem
  have hx : volumeExpr 0 1 (1/2) (4/5) (4/5) = 7/8 := by
    unfold volumeExpr
    norm_num
  have hy : volumeExpr 0 1 (1/2) (4/5) (4/5 - d) = 1/2 + 5/8 * d := by
    unfold volumeExpr
    rw [if_neg (not_lt.2 (by linarith : (0:ℚ) ≤ 4/5 - d)),
      if_pos (by linarith : (4/5 - d : ℚ) < 0 + 4/5)]
    field_simp
    ring
  simp only [hy, hx] at h1
  have habs : |(1/2 + 5/8 * d : ℚ) - 7/8| = 3/8 - 5/8 * d := by
    have hrw : (1/2 + 5/8 * d : ℚ) - 7/8 = -(3/8 - 5/8 * d) := by ring
    rw [hrw, abs_neg, abs_of_pos (by linarith)]
  rw [habs] at h1
  linarith

/-- **C1.** The renderer cannot combine an intro and an outro segment:
`RenderConfig` (`ffmpeg_render.py:10-18`) has no outro fields and the
volume expression built in `render_video` (lines 184-191) covers the
single intro segment only.  Concretely, with intro `[10, 30]`,
multiplier `1/2`, fade `0.12 s`, at a time `t = 110` lying inside a
hypothetical outro `[100, 120]` (and outside the intro) the built curve
is `1`, whereas the outro segment's own curve — what the specified
minimum combination would yield there — is `1/2`. -/
theorem volumeExpr_ignores_outro :
    volumeExpr 10 30 (1/2) (12/100) 110 = 1 ∧
    volumeExpr 100 120 (1/2) (12/100) 110 = 1/2 := by
  constructor <;> (unfold volumeExpr; norm_num)

/-! ## Fingerprint detector (`intro_detect/fingerprint.py`)

`FingerprintDetector.detect` (lines 125-191) extracts the search window
audio, then slides a reference-length window across it:

```
for offset in range(0, len(search_audio) - window_samples, hop_samples):
    ...
    if similarity > best_score:
        best_score = similarity; best_offset = offset; best_match = window
if best_score < self.similarity_threshold:
    return None
match_start_time = search_start + (best_offset / self.sample_rate)
match_end_time = match_start_time + (window_samples / self.sample_rate)
padding_seconds = padding_ms / 1000.0
intro_start = max(0.0, match_start_time - padding_seconds)
intro_end = match_end_time + padding_seconds
return IntroBoundaries(start=intro_start, end=intro_end,
                       confidence=best_score, method="fingerprint")
```

The per-offset similarity (`_compute_fingerprint` of the window followed
by `_compute_similarity` against the reference, a composition of library
feature extraction with the scorer embedded below) is abstracted as a
score function `ℕ → ℚ`; the scorer's output range `[0, 1]` becomes the
hypothesis `∀ o, 0 ≤ score o` where needed.  `best_match` (the audio
slice) does not influence the returned value and is not tracked. -/

/-- Detected boundaries (`IntroBoundaries`, fingerprint.py:14-20).
The Python field `end` is a Lean keyword and is rendered `end_`. -/
structure IntroBoundaries where
  start : ℚ
  end_ : ℚ
  confidence : ℚ
  method : String

/-- Python `range(0, stop, step)` over naturals (`stop ≤ 0` gives the
empty range, matching `range` with a non-positive upper bound, which is
how `len(search_audio) - window_samples` enters when the query is too
short). -/
def pyRange (stop step : ℕ) : List ℕ :=
  (List.range ((stop + step - 1) / step)).map (fun k => k * step)

/-- The running-best loop of `detect` (fingerprint.py:164-172): the
accumulator is `(best_score, best_offset)`, updated only on a strictly
greater similarity. -/
def scanLoop (score : ℕ → ℚ) : List ℕ → ℚ × ℕ → ℚ × ℕ
  | [], acc => acc
  | o :: rest, acc => scanLoop score rest (if acc.1 < score o then (score o, o) else acc)

namespace FingerprintDetector

/-- `FingerprintDetector.detect` (fingerprint.py:125-191) after audio
extraction, as a function of the scored offsets.  `queryLen` is
`len(search_audio)`, `window_samples` and `hop_samples` the window and
hop in samples, and the loop starts from `best_score = 0.0`,
`best_offset = 0`. -/
def detect (score : ℕ → ℚ) (queryLen window_samples hop_samples sample_rate : ℕ)
    (search_start similarity_threshold padding_ms : ℚ) : Option IntroBoundaries :=
  let offsets := pyRange (queryLen - window_samples) hop_samples
  let best := scanLoop score offsets (0, 0)
  if best.1 < similarity_threshold then none
  else
    let match_start_time := search_start + (best.2 : ℚ) / (sample_rate : ℚ)
    let match_end_time := match_start_time + (window_samples : ℚ) / (sample_rate : ℚ)
    let padding_seconds := padding_ms / 1000
    some ⟨max 0 (match_start_time - padding_seconds),
      match_end_time + padding_seconds, best.1, "fingerprint"⟩

/-- The time window of the query audio requested by `detect`
(fingerprint.py:146-153 calling `extract_audio_segment`, which runs
ffmpeg with `-ss search_start -t search_duration`,
extract_audio.py:38-62).  `detect`'s parameters are exactly
`video_path, search_start, search_duration, audio_stream_index,
padding_ms`; there is no `search_from_end` option, so the window is
always the forward one. -/
def detectQueryWindow (search_start search_duration : ℚ) : ℚ × ℚ :=
  (search_start, search_start + search_duration)

end FingerprintDetector

/-- Maximum similarity over the scanned offsets (`0` for an empty scan,
which is also the loop's initial `best_score`). -/
def maxScore (score : ℕ → ℚ) (offsets : List ℕ) : ℚ :=
  (offsets.map score).foldr max 0

lemma foldr_max_init_le (l : List ℚ) (b : ℚ) : b ≤ l.foldr max b := by
  induction l with
  | nil => exact le_refl b
  | cons a t ih => exact le_trans ih (le_max_right a _)

lemma mem_le_foldr_max (l : List ℚ) (b : ℚ) : ∀ x ∈ l, x ≤ l.foldr max b := by
  induction l with
  | nil => intro x hx; exact absurd hx (List.not_mem_nil x)
  | cons a t ih =>
    intro x hx
    rcases List.mem_cons.1 hx with rfl | hx
    · exact le_max_left _ _
    · exact le_trans (ih x hx) (le_max_right _ _)

lemma foldr_max_le (l : List ℚ) (b c : ℚ) (hb : b ≤ c) (h : ∀ x ∈ l, x ≤ c) :
    l.foldr max b ≤ c := by
  induction l with
  | nil => exact hb
  | cons a t ih =>
    exact max_le (h a (List.mem_cons_self a t))
      (ih (fun x hx => h x (List.mem_cons_of_mem a hx)))

lemma pyRange_zero (step : ℕ) : pyRange 0 step = [] := by
  unfold pyRange
  have h : (0 + step - 1) / step = 0 := by
    rcases Nat.eq_zero_or_pos step with h0 | h0
    · subst h0; rfl
    · exact Nat.div_eq_of_lt (by omega)
  rw [h]
  rfl

lemma zero_mem_pyRange {stop step : ℕ} (h : pyRange stop step ≠ []) :
    0 ∈ pyRange stop step := by
  unfold pyRange at h ⊢
  rcases hn : (stop + step - 1) / step with _ | n
  · rw [hn] at h; exact absurd rfl h
  · exact List.mem_map.2 ⟨0, List.mem_range.2 (Nat.succ_pos n), by simp⟩

lemma pyRange_pairwise (stop step : ℕ) (hstep : 0 < step) :
    (pyRange stop step).Pairwise (· < ·) := by
  unfold pyRange
  refine List.Pairwise.map _ (fun a b hab => ?_) (List.pairwise_lt_range _)
  exact Nat.mul_lt_mul_of_lt_of_le hab (le_refl step) hstep

/-- Invariant of the running-best loop: the final best score dominates
the initial one and every scanned score; and either nothing beat the
initial accumulator, or the final offset splits the scanned list with
every earlier offset scoring strictly below the final (strictly
improved) best score. -/
lemma scanLoop_spec (score : ℕ → ℚ) (l : List ℕ) :
    ∀ bs : ℚ, ∀ bo : ℕ,
      bs ≤ (scanLoop score l (bs, bo)).1 ∧
      (∀ o ∈ l, score o ≤ (scanLoop score l (bs, bo)).1) ∧
      (scanLoop score l (bs, bo) = (bs, bo) ∨
        ∃ l₁ l₂, l = l₁ ++ (scanLoop score l (bs, bo)).2 :: l₂ ∧
          score (scanLoop score l (bs, bo)).2 = (scanLoop score l (bs, bo)).1 ∧
          bs < (scanLoop score l (bs, bo)).1 ∧
          ∀ o ∈ l₁, score o < (scanLoop score l (bs, bo)).1) := by
  induction l with
  | nil =>
    intro bs bo
    refine ⟨le_refl _, ?_, Or.inl rfl⟩
    intro o ho
    exact absurd ho (List.not_mem_nil o)
  | cons o rest ih =>
    intro bs bo
    by_cases hlt : bs < score o
    · have hstep : scanLoop score (o :: rest) (bs, bo) = scanLoop score rest (score o, o) := by
        simp [scanLoop, hlt]
      obtain ⟨ih1, ih2, ih3⟩ := ih (score o) o
      rw [hstep]
      refine ⟨le_trans hlt.le ih1, ?_, ?_⟩
      · intro x hx
        rcases List.mem_cons.1 hx with rfl | hx
        · exact ih1
        · exact ih2 x hx
      · rcases ih3 with heq | ⟨l₁, l₂, hsplit, hsc, hlt2, hall⟩
        · right
          refine ⟨[], rest, ?_, ?_, ?_, ?_⟩
          · simp [heq]
          · simp [heq]
          · rw [heq]
            exact hlt
          · intro x hx; exact absurd hx (List.not_mem_nil x)
        · right
          refine ⟨o :: l₁, l₂, ?_, hsc, lt_trans hlt hlt2, ?_⟩
          · rw [List.cons_append, ← hsplit]
          · intro x hx
            rcases List.mem_cons.1 hx with rfl | hx
            · exact hlt2
            · exact hall x hx
    · have hstep : scanLoop score (o :: rest) (bs, bo) = scanLoop score rest (bs, bo) := by
        simp [scanLoop, hlt]
      obtain ⟨ih1, ih2, ih3⟩ := ih bs bo
      rw [hstep]
      refine ⟨ih1, ?_, ?_⟩
      · intro x hx
        rcases List.mem_cons.1 hx with rfl | hx
        · exact le_trans (not_lt.1 hlt) ih1
        · exact ih2 x hx
      · rcases ih3 with heq | ⟨l₁, l₂, hsplit, hsc, hlt2, hall⟩
        · left; exact heq
        · right
          refine ⟨o :: l₁, l₂, ?_, hsc, hlt2, ?_⟩
          · rw [List.cons_append, ← hsplit]
          · intro x hx
            rcases List.mem_cons.1 hx with rfl | hx
            · exact lt_of_le_of_lt (not_lt.1 hlt) hlt2
            · exact hall x hx

/-- For a strictly increasing offset list containing `0` and nonnegative
scores, the loop started from `(0, 0)` returns the maximum score
together with the numerically earliest offset attaining it (strictly
earlier offsets score strictly less). -/
lemma scanLoop_best (score : ℕ → ℚ) (l : List ℕ) (hpw : l.Pairwise (· < ·))
    (h0 : 0 ∈ l) (hscore : ∀ o, 0 ≤ score o) :
    (scanLoop score l (0, 0)).1 = (l.map score).foldr max 0 ∧
    (scanLoop score l (0, 0)).2 ∈ l ∧
    score (scanLoop score l (0, 0)).2 = (scanLoop score l (0, 0)).1 ∧
    ∀ o ∈ l, o < (scanLoop score l (0, 0)).2 → score o < (scanLoop score l (0, 0)).1 := by
  obtain ⟨h1, h2, h3⟩ := scanLoop_spec score l 0 0
  set r := scanLoop score l (0, 0) with hrdef
  have hbo : r.2 ∈ l ∧ score r.2 = r.1 ∧
      ∀ o ∈ l, o < r.2 → score o < r.1 := by
    rcases h3 with heq | ⟨l₁, l₂, hsplit, hsc, hpos, hall⟩
    · have hr1 : r.1 = 0 := by rw [heq]
      have hr2 : r.2 = 0 := by rw [heq]
      refine ⟨?_, ?_, ?_⟩
      · rw [hr2]; exact h0
      · rw [hr1, hr2]
        exact le_antisymm (hr1 ▸ h2 0 h0) (hscore 0)
      · intro o ho hlt
        rw [hr2] at hlt
        exact absurd hlt (Nat.not_lt_zero o)
    · refine ⟨?_, hsc, ?_⟩
      · rw [hsplit]
        exact List.mem_append_right _ (List.mem_cons_self _ _)
      · intro o ho hlt
        rw [hsplit] at hpw ho
        rcases List.mem_append.1 ho with h | h
        · exact hall o h
        · rcases List.mem_cons.1 h with rfl | h
          · exact absurd hlt (lt_irrefl _)
          · have hp2 := (List.pairwise_append.1 hpw).2.1
            have hro := (List.pairwise_cons.1 hp2).1 o h
            omega
  refine ⟨?_, hbo⟩
  refine le_antisymm ?_ ?_
  · calc r.1 = score r.2 := hbo.2.1.symm
    _ ≤ (l.map score).foldr max 0 :=
      mem_le_foldr_max _ 0 _ (List.mem_map_of_mem score hbo.1)
  · refine foldr_max_le _ 0 _ h1 ?_
    intro x hx
    obtain ⟨o, ho, rfl⟩ := List.mem_map.1 hx
    exact h2 o ho

/-- **C5.** Whenever at least one candidate window is scored (the offset
list is nonempty), `FingerprintDetector.detect` returns `none` exactly
when the best similarity score is strictly below the similarity
threshold; otherwise it returns boundaries with
`start = max 0 (search_start + best_offset/sample_rate - padding)`,
`end = search_start + (best_offset + window_samples)/sample_rate + padding`
(`padding = padding_ms/1000`, per-side), confidence the best score and
method `"fingerprint"`, where `best_offset` is the earliest scanned
offset achieving the maximum score (every strictly earlier offset
scores strictly less, by the strictly-greater comparison). -/
theorem detect_spec (score : ℕ → ℚ) (queryLen window_samples hop_samples sample_rate : ℕ)
    (search_start similarity_threshold padding_ms : ℚ)
    (hhop : 0 < hop_samples) (hscore : ∀ o, 0 ≤ score o)
    (hne : pyRange (queryLen - window_samples) hop_samples ≠ []) :
    (FingerprintDetector.detect score queryLen window_samples hop_samples sample_rate
        search_start similarity_threshold padding_ms = none ↔
      maxScore score (pyRange (queryLen - window_samples) hop_samples) <
        similarity_threshold) ∧
    (similarity_threshold ≤
        maxScore score (pyRange (queryLen - window_samples) hop_samples) →
      ∃ bo, bo ∈ pyRange (queryLen - window_samples) hop_samples ∧
        score bo = maxScore score (pyRange (queryLen - window_samples) hop_samples) ∧
        (∀ o ∈ pyRange (queryLen - window_samples) hop_samples, o < bo →
          score o < maxScore score (pyRange (queryLen - window_samples) hop_samples)) ∧
        FingerprintDetector.detect score queryLen window_samples hop_samples sample_rate
            search_start similarity_threshold padding_ms =
          some ⟨max 0 (search_start + (bo : ℚ) / (sample_rate : ℚ) - padding_ms / 1000),
            search_start + ((bo : ℚ) + (window_samples : ℚ)) / (sample_rate : ℚ) +
              padding_ms / 1000,
            maxScore score (pyRange (queryLen - window_samples) hop_samples),
            "fingerprint"⟩) := by
  obtain ⟨hbest, hmem, hsc, hearliest⟩ :=
    scanLoop_best score (pyRange (queryLen - window_samples) hop_samples)
      (pyRange_pairwise _ _ hhop) (zero_mem_pyRange hne) hscore
  have hdet : FingerprintDetector.detect score queryLen window_samples hop_samples
      sample_rate search_start similarity_threshold padding_ms =
      if (scanLoop score (pyRange (queryLen - window_samples) hop_samples) (0, 0)).1 <
          similarity_threshold then none
      else some ⟨max 0 (search_start +
          ((scanLoop score (pyRange (queryLen - window_samples) hop_samples) (0, 0)).2 : ℚ) /
            (sample_rate : ℚ) - padding_ms / 1000),
        search_start +
          ((scanLoop score (pyRange (queryLen - window_samples) hop_samples) (0, 0)).2 : ℚ) /
            (sample_rate : ℚ) + (window_samples : ℚ) / (sample_rate : ℚ) + padding_ms / 1000,
        (scanLoop score (pyRange (queryLen - window_samples) hop_samples) (0, 0)).1,
        "fingerprint"⟩ := rfl
  have hbest' : (scanLoop score (pyRange (queryLen - window_samples) hop_samples) (0, 0)).1 =
      maxScore score (pyRange (queryLen - window_samples) hop_samples) := hbest
  constructor
  · rw [hdet, hbest']
    split_ifs with h <;> simp [h]
  · intro hth
    refine ⟨(scanLoop score (pyRange (queryLen - window_samples) hop_samples) (0, 0)).2,
      hmem, hbest' ▸ hsc, ?_, ?_⟩
    · intro o ho hlt
      exact hbest' ▸ hearliest o ho hlt
    · rw [hdet, if_neg (not_lt.2 (hbest'.symm ▸ hth)), hbest']
      have hend : search_start +
          ((scanLoop score (pyRange (queryLen - window_samples) hop_samples) (0, 0)).2 : ℚ) /
            (sample_rate : ℚ) + (window_samples : ℚ) / (sample_rate : ℚ) + padding_ms / 1000 =
          search_start +
          (((scanLoop score (pyRange (queryLen - window_samples) hop_samples) (0, 0)).2 : ℚ) +
            (window_samples : ℚ)) / (sample_rate : ℚ) + padding_ms / 1000 := by
        rw [add_div]
        ring
      rw [hend]

/-- Closed instance of the detector characterization: two offsets
`[0, 2]` with scores `1/2` and `9/10`, threshold `1/10`; the detector
reports a match. -/
theorem detect_spec_witness :
    FingerprintDetector.detect (fun o => if o = 2 then 9/10 else 1/2) 8 4 2 10 0
      (1/10) 200 ≠ none := by
  obtain ⟨hnone, hsome⟩ :=
    detect_spec (fun o => if o = 2 then 9/10 else 1/2) 8 4 2 10 0 (1/10) 200
      (by norm_num) (fun o => by dsimp only; split_ifs <;> norm_num) (by decide)
  have hms : maxScore (fun o => if o = 2 then 9/10 else 1/2) (pyRange (8 - 4) 2) = 9/10 := by
    norm_num [maxScore, pyRange, List.range_succ]
  obtain ⟨bo, hmem, hsc, hfirst, hdet⟩ := hsome (by rw [hms]; norm_num)
  rw [hdet]
  simp

/-- Shared helper for the two no-candidate situations: when
`len(search_audio) - window_samples ≤ 0` the Python `range` (here
`pyRange` after ℕ-truncation) is empty, the loop body never runs,
`best_score` stays `0.0`, and any positive threshold rejects. -/
lemma detect_no_candidates (score : ℕ → ℚ)
    (queryLen window_samples hop_samples sample_rate : ℕ)
    (search_start similarity_threshold padding_ms : ℚ)
    (hthr : 0 < similarity_threshold) (h0 : queryLen - window_samples = 0) :
    pyRange (queryLen - window_samples) hop_samples = [] ∧
    FingerprintDetector.detect score queryLen window_samples hop_samples sample_rate
      search_start similarity_threshold padding_ms = none := by
  have hempty : pyRange (queryLen - window_samples) hop_samples = [] := by
    rw [h0]; exact pyRange_zero _
  refine ⟨hempty, ?_⟩
  unfold FingerprintDetector.detect
  rw [hempty]
  simp [scanLoop, hthr]

/-- **C6.** If the search window is strictly shorter than the reference
window (`queryLen < window_samples` in samples), no candidate offset
exists (the scanned offset list is empty, so no window is ever scored
and no negative-length slide is attempted — the embedded `detect` is a
total function), and `detect` returns `none` for any positive
similarity threshold (default `0.82`). -/
theorem detect_short_search (score : ℕ → ℚ)
    (queryLen window_samples hop_samples sample_rate : ℕ)
    (search_start similarity_threshold padding_ms : ℚ)
    (hthr : 0 < similarity_threshold) (hshort : queryLen < window_samples) :
    pyRange (queryLen - window_samples) hop_samples = [] ∧
    FingerprintDetector.detect score queryLen window_samples hop_samples sample_rate
      search_start similarity_threshold padding_ms = none :=
  detect_no_candidates score queryLen window_samples hop_samples sample_rate
    search_start similarity_threshold padding_ms hthr
    (Nat.sub_eq_zero_of_le hshort.le)

/-- Closed instance: a 5-sample query against a 10-sample reference
window is rejected without scanning. -/
theorem detect_short_search_witness :
    pyRange (5 - 10) 2 = [] ∧
    FingerprintDetector.detect (fun _ => 1) 5 10 2 22050 0 (82/100) 200 = none :=
  detect_short_search (fun _ => 1) 5 10 2 22050 0 (82/100) 200
    (by norm_num) (by norm_num)

/-- **C9.** If the query has exactly `window_samples` samples, the
exclusive upper bound of `range(0, len(query) - window_samples, hop)`
excludes the flush alignment at offset `0`: the offset list is empty,
no candidate is scored (for any score function — in particular for a
sample-exact copy of the reference, whatever its similarity), and
`detect` returns `none` for any positive threshold. -/
theorem detect_exact_length_query (score : ℕ → ℚ)
    (queryLen window_samples hop_samples sample_rate : ℕ)
    (search_start similarity_threshold padding_ms : ℚ)
    (hthr : 0 < similarity_threshold) (hlen : queryLen = window_samples) :
    pyRange (queryLen - window_samples) hop_samples = [] ∧
    FingerprintDetector.detect score queryLen window_samples hop_samples sample_rate
      search_start similarity_threshold padding_ms = none :=
  detect_no_candidates score queryLen window_samples hop_samples sample_rate
    search_start similarity_threshold padding_ms hthr (by omega)

/-- Closed instance: a query of exactly the reference window length is
rejected even with a perfectly scoring (constant `1`) similarity. -/
theorem detect_exact_length_query_witness :
    pyRange (4 - 4) 2 = [] ∧
    FingerprintDetector.detect (fun _ => 1) 4 4 2 22050 0 (82/100) 200 = none :=
  detect_exact_length_query (fun _ => 1) 4 4 2 22050 0 (82/100) 200
    (by norm_num) rfl

/-- **C2.** The query window `detect` scans is always the forward window
`[search_start, search_start + search_duration]`: `detect` has no
`search_from_end`/`searchFromEnd` parameter at all (`cli.py:211-217`
passes `search_from_end=True`, which raises `TypeError` at runtime and
is swallowed by the surrounding `except`).  Concretely, for
`search_start = 0`, `search_duration = 150` on a 600-second media, the
scanned window is `(0, 150)`, not the backward window starting at
`600 - 150 = 450`. -/
theorem detectQueryWindow_forward :
    FingerprintDetector.detectQueryWindow 0 150 = (0, 150) ∧
    (FingerprintDetector.detectQueryWindow 0 150).1 ≠ 600 - 150 := by
  constructor
  · norm_num [FingerprintDetector.detectQueryWindow]
  · norm_num [FingerprintDetector.detectQueryWindow]

/-! ## Similarity scorer (`FingerprintDetector._compute_similarity`,
fingerprint.py:93-123)

```
ref_flat = ref_fp.flatten(); query_flat = query_fp.flatten()
min_len = min(len(ref_flat), len(query_flat))
ref_flat = ref_flat[:min_len]; query_flat = query_flat[:min_len]
dot_product = np.dot(ref_flat, query_flat)
norm_ref = np.linalg.norm(ref_flat); norm_query = np.linalg.norm(query_flat)
if norm_ref == 0 or norm_query == 0: return 0.0
similarity = dot_product / (norm_ref * norm_query)
return (similarity + 1) / 2
```

Feature matrices are lists of rows of reals; numpy `flatten` is
`List.flatten`.  The Euclidean norm forces the model into `ℝ`
(`Real.sqrt`). -/

namespace FingerprintDetector

/-- `np.dot` on the two (already truncated) flat vectors. -/
def dotProduct (a b : List ℝ) : ℝ := (List.zipWith (fun x y => x * y) a b).sum

/-- `np.linalg.norm`: the Euclidean norm of a flat vector. -/
noncomputable def norm2 (v : List ℝ) : ℝ :=
  Real.sqrt ((v.map (fun x => x ^ 2)).sum)

/-- `FingerprintDetector._compute_similarity` (fingerprint.py:93-123). -/
noncomputable def compute_similarity (ref_fp query_fp : List (List ℝ)) : ℝ :=
  let ref_flat := ref_fp.flatten
  let query_flat := query_fp.flatten
  let min_len := min ref_flat.length query_flat.length
  let r := ref_flat.take min_len
  let q := query_flat.take min_len
  if norm2 r = 0 ∨ norm2 q = 0 then 0
  else (dotProduct r q / (norm2 r * norm2 q) + 1) / 2

lemma norm2_nonneg (v : List ℝ) : 0 ≤ norm2 v := Real.sqrt_nonneg _

end FingerprintDetector

lemma list_sum_eq_sum_getD (l : List ℝ) :
    l.sum = ∑ i ∈ Finset.range l.length, l.getD i 0 := by
  induction l with
  | nil => simp
  | cons a t ih =>
    rw [List.sum_cons, ih, List.length_cons, Finset.sum_range_succ']
    simp [List.getD_cons_succ, List.getD_cons_zero, add_comm]

lemma dotProduct_eq_sum (r q : List ℝ) (h : r.length = q.length) :
    FingerprintDetector.dotProduct r q =
      ∑ i ∈ Finset.range r.length, r.getD i 0 * q.getD i 0 := by
  rw [FingerprintDetector.dotProduct, list_sum_eq_sum_getD]
  have hlen : (List.zipWith (fun x y => x * y) r q).length = r.length := by
    rw [List.length_zipWith, h, min_self]
  rw [hlen]
  refine Finset.sum_congr rfl fun i hi => ?_
  have hi1 : i < r.length := Finset.mem_range.1 hi
  have hi2 : i < q.length := h ▸ hi1
  have hiz : i < (List.zipWith (fun x y => x * y) r q).length := hlen ▸ hi1
  rw [List.getD_eq_getElem _ _ hiz, List.getD_eq_getElem _ _ hi1,
    List.getD_eq_getElem _ _ hi2, List.getElem_zipWith]

lemma list_sum_sq_eq (r : List ℝ) :
    ((r.map fun x => x ^ 2).sum) = ∑ i ∈ Finset.range r.length, r.getD i 0 ^ 2 := by
  rw [list_sum_eq_sum_getD]
  have hlen : (r.map fun x => x ^ 2).length = r.length := List.length_map r _
  rw [hlen]
  refine Finset.sum_congr rfl fun i hi => ?_
  have hi1 : i < r.length := Finset.mem_range.1 hi
  have him : i < (r.map fun x => x ^ 2).length := hlen ▸ hi1
  rw [List.getD_eq_getElem _ _ him, List.getD_eq_getElem _ _ hi1, List.getElem_map]

/-- Cauchy-Schwarz for the truncated flat vectors: the dot product is
bounded in absolute value by the product of the Euclidean norms. -/
lemma abs_dotProduct_le (r q : List ℝ) (h : r.length = q.length) :
    |FingerprintDetector.dotProduct r q| ≤
      FingerprintDetector.norm2 r * FingerprintDetector.norm2 q := by
  have h1 : FingerprintDetector.norm2 r =
      Real.sqrt (∑ i ∈ Finset.range r.length, r.getD i 0 ^ 2) := by
    rw [FingerprintDetector.norm2, list_sum_sq_eq]
  have h2 : FingerprintDetector.norm2 q =
      Real.sqrt (∑ i ∈ Finset.range r.length, q.getD i 0 ^ 2) := by
    rw [FingerprintDetector.norm2, list_sum_sq_eq, h]
  have hub := Real.sum_mul_le_sqrt_mul_sqrt (Finset.range r.length)
    (fun i => r.getD i 0) (fun i => q.getD i 0)
  have hlb := Real.sum_mul_le_sqrt_mul_sqrt (Finset.range r.length)
    (fun i => -(r.getD i 0)) (fun i => q.getD i 0)
  have he : (∑ i ∈ Finset.range r.length, -(r.getD i 0) * q.getD i 0) =
      -(∑ i ∈ Finset.range r.length, r.getD i 0 * q.getD i 0) := by
    rw [← Finset.sum_neg_distrib]
    exact Finset.sum_congr rfl fun i _ => by ring
  have hsq : (∑ i ∈ Finset.range r.length, (-(r.getD i 0)) ^ 2) =
      ∑ i ∈ Finset.range r.length, r.getD i 0 ^ 2 :=
    Finset.sum_congr rfl fun i _ => by ring
  rw [he, hsq] at hlb
  rw [abs_le, dotProduct_eq_sum r q h, h1, h2]
  constructor
  · linarith
  · exact hub

/-- Unfolding of `compute_similarity` when the two matrices are single
rows of equal length (so that truncation is the identity). -/
lemma compute_similarity_pair (a b : List ℝ) (h : a.length = b.length) :
    FingerprintDetector.compute_similarity [a] [b] =
      if FingerprintDetector.norm2 a = 0 ∨ FingerprintDetector.norm2 b = 0 then 0
      else (FingerprintDetector.dotProduct a b /
        (FingerprintDetector.norm2 a * FingerprintDetector.norm2 b) + 1) / 2 := by
  have hm : min a.length b.length = a.length := min_eq_left h.le
  have ha : a.take (min a.length b.length) = a := by rw [hm, List.take_length]
  have hb : b.take (min a.length b.length) = b := by rw [hm, h, List.take_length]
  simp only [FingerprintDetector.compute_similarity, List.flatten_cons,
    List.flatten_nil, List.append_nil]
  rw [ha, hb]

/-- Truncation lemma: the scorer only ever sees the two flat vectors cut
to the shorter length. -/
lemma compute_similarity_take (R Q : List (List ℝ)) :
    FingerprintDetector.compute_similarity R Q =
      FingerprintDetector.compute_similarity
        [R.flatten.take (min R.flatten.length Q.flatten.length)]
        [Q.flatten.take (min R.flatten.length Q.flatten.length)] := by
  have hlr : (R.flatten.take (min R.flatten.length Q.flatten.length)).length =
      min R.flatten.length Q.flatten.length := by
    rw [List.length_take, min_eq_left (min_le_left _ _)]
  have hlq : (Q.flatten.take (min R.flatten.length Q.flatten.length)).length =
      min R.flatten.length Q.flatten.length := by
    rw [List.length_take, min_eq_left (min_le_right _ _)]
  rw [compute_similarity_pair _ _ (by rw [hlr, hlq])]
  simp only [FingerprintDetector.compute_similarity]

/-- **C7.** The similarity scorer flattens both matrices, truncates both
flat vectors to the shorter length (the result depends only on those
truncations — never pads), and returns `(cos + 1)/2`; the result always
lies in `[0, 1]`, and equals `0` exactly as written in the code whenever
either truncated vector has zero Euclidean norm. -/
theorem compute_similarity_spec (ref_fp query_fp : List (List ℝ)) :
    (0 ≤ FingerprintDetector.compute_similarity ref_fp query_fp ∧
      FingerprintDetector.compute_similarity ref_fp query_fp ≤ 1) ∧
    ((FingerprintDetector.norm2
        (ref_fp.flatten.take (min ref_fp.flatten.length query_fp.flatten.length)) = 0 ∨
      FingerprintDetector.norm2
        (query_fp.flatten.take (min ref_fp.flatten.length query_fp.flatten.length)) = 0) →
      FingerprintDetector.compute_similarity ref_fp query_fp = 0) ∧
    FingerprintDetector.compute_similarity ref_fp query_fp =
      FingerprintDetector.compute_similarity
        [ref_fp.flatten.take (min ref_fp.flatten.length query_fp.flatten.length)]
        [query_fp.flatten.take (min ref_fp.flatten.length query_fp.flatten.length)] := by
  have hre : FingerprintDetector.compute_similarity ref_fp query_fp =
      if FingerprintDetector.norm2
          (ref_fp.flatten.take (min ref_fp.flatten.length query_fp.flatten.length)) = 0 ∨
        FingerprintDetector.norm2
          (query_fp.flatten.take (min ref_fp.flatten.length query_fp.flatten.length)) = 0
      then 0
      else (FingerprintDetector.dotProduct
          (ref_fp.flatten.take (min ref_fp.flatten.length query_fp.flatten.length))
          (query_fp.flatten.take (min ref_fp.flatten.length query_fp.flatten.length)) /
        (FingerprintDetector.norm2
          (ref_fp.flatten.take (min ref_fp.flatten.length query_fp.flatten.length)) *
         FingerprintDetector.norm2
          (query_fp.flatten.take (min ref_fp.flatten.length query_fp.flatten.length))) + 1) / 2 :=
    rfl
  have hlen : (ref_fp.flatten.take (min ref_fp.flatten.length query_fp.flatten.length)).length =
      (query_fp.flatten.take (min ref_fp.flatten.length query_fp.flatten.length)).length := by
    rw [List.length_take, List.length_take, min_eq_left (min_le_left _ _),
      min_eq_left (min_le_right _ _)]
  by_cases hz : FingerprintDetector.norm2
      (ref_fp.flatten.take (min ref_fp.flatten.length query_fp.flatten.length)) = 0 ∨
    FingerprintDetector.norm2
      (query_fp.flatten.take (min ref_fp.flatten.length query_fp.flatten.length)) = 0
  · have hval : FingerprintDetector.compute_similarity ref_fp query_fp = 0 := by
      rw [hre, if_pos hz]
    refine ⟨⟨?_, ?_⟩, fun _ => hval, compute_similarity_take _ _⟩
    · rw [hval]
    · rw [hval]
      exact zero_le_one
  · have hval : FingerprintDetector.compute_similarity ref_fp query_fp =
        (FingerprintDetector.dotProduct
          (ref_fp.flatten.take (min ref_fp.flatten.length query_fp.flatten.length))
          (query_fp.flatten.take (min ref_fp.flatten.length query_fp.flatten.length)) /
        (FingerprintDetector.norm2
          (ref_fp.flatten.take (min ref_fp.flatten.length query_fp.flatten.length)) *
         FingerprintDetector.norm2
          (query_fp.flatten.take (min ref_fp.flatten.length query_fp.flatten.length))) + 1) / 2 := by
      rw [hre, if_neg hz]
    have hz2 := not_or.1 hz
    have hr : 0 < FingerprintDetector.norm2
        (ref_fp.flatten.take (min ref_fp.flatten.length query_fp.flatten.length)) :=
      (FingerprintDetector.norm2_nonneg _).lt_of_ne (Ne.symm hz2.1)
    have hq : 0 < FingerprintDetector.norm2
        (query_fp.flatten.take (min ref_fp.flatten.length query_fp.flatten.length)) :=
      (FingerprintDetector.norm2_nonneg _).lt_of_ne (Ne.symm hz2.2)
    have hprod : 0 < FingerprintDetector.norm2
        (ref_fp.flatten.take (min ref_fp.flatten.length query_fp.flatten.length)) *
      FingerprintDetector.norm2
        (query_fp.flatten.take (min ref_fp.flatten.length query_fp.flatten.length)) :=
      mul_pos hr hq
    obtain ⟨hl, hu⟩ := abs_le.1 (abs_dotProduct_le _ _ hlen)
    have hcos_le : FingerprintDetector.dotProduct
        (ref_fp.flatten.take (min ref_fp.flatten.length query_fp.flatten.length))
        (query_fp.flatten.take (min ref_fp.flatten.length query_fp.flatten.length)) /
        (FingerprintDetector.norm2
          (ref_fp.flatten.take (min ref_fp.flatten.length query_fp.flatten.length)) *
         FingerprintDetector.norm2
          (query_fp.flatten.take (min ref_fp.flatten.length query_fp.flatten.length))) ≤ 1 :=
      (div_le_one hprod).2 hu
    have hcos_ge : (-1 : ℝ) ≤ FingerprintDetector.dotProduct
        (ref_fp.flatten.take (min ref_fp.flatten.length query_fp.flatten.length))
        (query_fp.flatten.take (min ref_fp.flatten.length query_fp.flatten.length)) /
        (FingerprintDetector.norm2
          (ref_fp.flatten.take (min ref_fp.flatten.length query_fp.flatten.length)) *
         FingerprintDetector.norm2
          (query_fp.flatten.take (min ref_fp.flatten.length query_fp.flatten.length))) :=
      (le_div_iff₀ hprod).2 (by linarith)
    refine ⟨⟨?_, ?_⟩, fun hcontra => absurd hcontra hz, compute_similarity_take _ _⟩
    · rw [hval]
      linarith
    · rw [hval]
      linarith

/-- Closed instance of the zero-norm clause: a silent (all-zero)
reference row against a non-silent query scores exactly `0`. -/
theorem compute_similarity_spec_witness :
    FingerprintDetector.compute_similarity [[(0 : ℝ)]] [[1]] = 0 := by
  apply (compute_similarity_spec [[(0 : ℝ)]] [[1]]).2.1
  left
  simp [FingerprintDetector.norm2]

/-! ## Heuristic detector (`intro_detect/heuristic.py`)

`HeuristicDetector.detect` (heuristic.py:98-161) measures short-term
loudness over 5-second windows at a 2-second hop:

```
search_end = min(self.search_window_seconds, 300.0)
for t in np.arange(0.0, search_end - window_size, hop_size):
    windows.append((t, loudness))
if len(windows) < 2: return None
for i in range(1, len(loudnesses)):
    jump_db = loudnesses[i] - loudnesses[i - 1]
    if jump_db >= self.loudness_threshold_db:
        intro_start = times[i]
        intro_end = min(intro_start + self.max_intro_seconds, search_end)
        for j in range(i + 1, len(loudnesses)):
            drop_db = loudnesses[i] - loudnesses[j]
            if drop_db >= self.loudness_threshold_db:
                intro_end = times[j] + window_size
                break
        if intro_end - intro_start < self.min_intro_seconds:
            intro_end = intro_start + self.min_intro_seconds
        return IntroBoundaries(start=intro_start, end=intro_end,
                               confidence=0.6, method="heuristic")
return None
```

The per-window measurement `_measure_short_term_loudness` is abstracted
as a total function `L : ℚ → ℚ` from window start time to loudness (its
totality on unparseable collaborator output is proved separately from
its own embedding below).  The two early-return `for` loops are modelled
as fuel-indexed structural recursions: fuel `n` with start index `i`
walks exactly the indices `i, i+1, …, i+n-1`, matching
`range(i, len)` with `n = len - i`. -/

/-- `np.arange(0.0, stop, step)` over exact rationals: `⌈stop/step⌉`
elements `0, step, 2·step, …` (empty for `stop ≤ 0`); heuristic.py:120. -/
def arangeQ (stop step : ℚ) : List ℚ :=
  (List.range (⌈stop / step⌉).toNat).map (fun i => (i : ℚ) * step)

namespace HeuristicDetector

/-- The inner end-refinement loop (heuristic.py:144-148): scan indices
`j, j+1, …` (fuel `n`) for the first window whose loudness has dropped
at least `thr` below the rise window loudness `loudStart`, returning
`times[j] + window_size` for the first such `j`. -/
def dropLoop (times ls : List ℚ) (loudStart thr ws : ℚ) : ℕ → ℕ → Option ℚ
  | 0, _ => none
  | n + 1, j =>
    if thr ≤ loudStart - ls.getD j 0 then some (times.getD j 0 + ws)
    else dropLoop times ls loudStart thr ws n (j + 1)

/-- The end computation performed once the rise index `k` is found
(heuristic.py:140-152): default `min(start + max_intro, search_end)`,
refined by the first qualifying drop, then extended to the minimum
intro duration. -/
def introEndAt (times ls : List ℚ) (searchEnd minI maxI thr ws : ℚ) (k : ℕ) : ℚ :=
  let intro_start := times.getD k 0
  let intro_end0 := min (intro_start + maxI) searchEnd
  let intro_end1 :=
    match dropLoop times ls (ls.getD k 0) thr ws (ls.length - (k + 1)) (k + 1) with
    | some e => e
    | none => intro_end0
  if intro_end1 - intro_start < minI then intro_start + minI else intro_end1

/-- The outer rise-scan loop (heuristic.py:134-159): first index `i`
(fuel-bounded) where loudness rises at least `thr` over the previous
window returns boundaries with confidence `0.6` (`3/5`) and method
`"heuristic"`. -/
def riseLoop (times ls : List ℚ) (searchEnd minI maxI thr ws : ℚ) :
    ℕ → ℕ → Option IntroBoundaries
  | 0, _ => none
  | n + 1, i =>
    if thr ≤ ls.getD i 0 - ls.getD (i - 1) 0 then
      some ⟨times.getD i 0, introEndAt times ls searchEnd minI maxI thr ws i,
        3/5, "heuristic"⟩
    else riseLoop times ls searchEnd minI maxI thr ws n (i + 1)

/-- `HeuristicDetector.detect` (heuristic.py:98-161), parametrized by
the measured loudness `L`. -/
def detect (L : ℚ → ℚ)
    (search_window_seconds min_intro_seconds max_intro_seconds
      loudness_threshold_db : ℚ) : Option IntroBoundaries :=
  let window_size : ℚ := 5
  let hop_size : ℚ := 2
  let search_end := min search_window_seconds 300
  let times := arangeQ (search_end - window_size) hop_size
  let loudnesses := times.map L
  if times.length < 2 then none
  else riseLoop times loudnesses search_end min_intro_seconds max_intro_seconds
    loudness_threshold_db window_size (loudnesses.length - 1) 1

end HeuristicDetector

/-- Characterization of the inner drop loop: over indices
`j, …, j+n-1`, `none` exactly when no qualifying drop exists, and a
`some` result comes from the first qualifying drop index. -/
lemma dropLoop_spec (times ls : List ℚ) (loudStart thr ws : ℚ) :
    ∀ n j,
      (HeuristicDetector.dropLoop times ls loudStart thr ws n j = none ↔
        ∀ k, j ≤ k → k < j + n → loudStart - ls.getD k 0 < thr) ∧
      (∀ e, HeuristicDetector.dropLoop times ls loudStart thr ws n j = some e →
        ∃ k, j ≤ k ∧ k < j + n ∧ thr ≤ loudStart - ls.getD k 0 ∧
          (∀ m, j ≤ m → m < k → loudStart - ls.getD m 0 < thr) ∧
          e = times.getD k 0 + ws) := by
  intro n
  induction n with
  | zero =>
    intro j
    refine ⟨⟨fun _ k hk1 hk2 => absurd hk2 (by omega), fun _ => rfl⟩, ?_⟩
    intro e he
    simp [HeuristicDetector.dropLoop] at he
  | succ n ih =>
    intro j
    by_cases hc : thr ≤ loudStart - ls.getD j 0
    · have hunf : HeuristicDetector.dropLoop times ls loudStart thr ws (n + 1) j =
          some (times.getD j 0 + ws) := by
        simp only [HeuristicDetector.dropLoop]
        rw [if_pos hc]
      constructor
      · rw [hunf]
        constructor
        · intro h
          exact absurd h (by simp)
        · intro hall
          exact absurd (hall j (le_refl j) (by omega)) (not_lt.2 hc)
      · intro e he
        rw [hunf] at he
        refine ⟨j, le_refl j, by omega, hc, ?_, (Option.some.inj he).symm⟩
        intro m hm1 hm2
        omega
    · have hunf : HeuristicDetector.dropLoop times ls loudStart thr ws (n + 1) j =
          HeuristicDetector.dropLoop times ls loudStart thr ws n (j + 1) := by
        simp only [HeuristicDetector.dropLoop]
        rw [if_neg hc]
      obtain ⟨ihn, ihs⟩ := ih (j + 1)
      constructor
      · rw [hunf, ihn]
        constructor
        · intro h k hk1 hk2
          rcases Nat.eq_or_lt_of_le hk1 with rfl | hk
          · exact not_le.1 hc
          · exact h k hk (by omega)
        · intro h k hk1 hk2
          exact h k (by omega) (by omega)
      · intro e he
        rw [hunf] at he
        obtain ⟨k, hk1, hk2, hk3, hk4, hk5⟩ := ihs e he
        refine ⟨k, by omega, by omega, hk3, ?_, hk5⟩
        intro m hm1 hm2
        rcases Nat.eq_or_lt_of_le hm1 with rfl | hm
        · exact not_le.1 hc
        · exact hk4 m hm hm2

/-- Characterization of the outer rise loop: over indices `i, …, i+n-1`,
`none` exactly when no qualifying rise exists, and a `some` result comes
from the first qualifying rise index with the boundary built there. -/
lemma riseLoop_spec (times ls : List ℚ) (searchEnd minI maxI thr ws : ℚ) :
    ∀ n i,
      (HeuristicDetector.riseLoop times ls searchEnd minI maxI thr ws n i = none ↔
        ∀ k, i ≤ k → k < i + n → ls.getD k 0 - ls.getD (k - 1) 0 < thr) ∧
      (∀ b, HeuristicDetector.riseLoop times ls searchEnd minI maxI thr ws n i = some b →
        ∃ k, i ≤ k ∧ k < i + n ∧ thr ≤ ls.getD k 0 - ls.getD (k - 1) 0 ∧
          (∀ m, i ≤ m → m < k → ls.getD m 0 - ls.getD (m - 1) 0 < thr) ∧
          b = ⟨times.getD k 0,
            HeuristicDetector.introEndAt times ls searchEnd minI maxI thr ws k,
            3/5, "heuristic"⟩) := by
  intro n
  induction n with
  | zero =>
    intro i
    refine ⟨⟨fun _ k hk1 hk2 => absurd hk2 (by omega), fun _ => rfl⟩, ?_⟩
    intro b hb
    simp [HeuristicDetector.riseLoop] at hb
  | succ n ih =>
    intro i
    by_cases hc : thr ≤ ls.getD i 0 - ls.getD (i - 1) 0
    · have hunf : HeuristicDetector.riseLoop times ls searchEnd minI maxI thr ws (n + 1) i =
          some ⟨times.getD i 0,
            HeuristicDetector.introEndAt times ls searchEnd minI maxI thr ws i,
            3/5, "heuristic"⟩ := by
        simp only [HeuristicDetector.riseLoop]
        rw [if_pos hc]
      constructor
      · rw [hunf]
        constructor
        · intro h
          exact absurd h (by simp)
        · intro hall
          exact absurd (hall i (le_refl i) (by omega)) (not_lt.2 hc)
      · intro b hb
        rw [hunf] at hb
        refine ⟨i, le_refl i, by omega, hc, ?_, (Option.some.inj hb).symm⟩
        intro m hm1 hm2
        omega
    · have hunf : HeuristicDetector.riseLoop times ls searchEnd minI maxI thr ws (n + 1) i =
          HeuristicDetector.riseLoop times ls searchEnd minI maxI thr ws n (i + 1) := by
        simp only [HeuristicDetector.riseLoop]
        rw [if_neg hc]
      obtain ⟨ihn, ihs⟩ := ih (i + 1)
      constructor
      · rw [hunf, ihn]
        constructor
        · intro h k hk1 hk2
          rcases Nat.eq_or_lt_of_le hk1 with rfl | hk
          · exact not_le.1 hc
          · exact h k hk (by omega)
        · intro h k hk1 hk2
          exact h k (by omega) (by omega)
      · intro b hb
        rw [hunf] at hb
        obtain ⟨k, hk1, hk2, hk3, hk4, hk5⟩ := ihs b hb
        refine ⟨k, by omega, by omega, hk3, ?_, hk5⟩
        intro m hm1 hm2
        rcases Nat.eq_or_lt_of_le hm1 with rfl | hm
        · exact not_le.1 hc
        · exact hk4 m hm hm2

/-- **C8.** Characterization of the heuristic detector, for `times` the
window start times (5-second windows, 2-second hop, spanning
`min(search_window_seconds, 300) - 5`) and `ls` their measured
loudnesses: `detect` returns `none` iff fewer than two windows exist or
no window's loudness exceeds its predecessor's by at least the
threshold; otherwise the result starts at the first rising window, has
confidence exactly `3/5` (`0.6`) and method `"heuristic"`, and its end
is `times[j] + 5` for the first later window `j` whose loudness is at
least the threshold below the rise window's loudness — defaulting to
`min(start + max_intro_seconds, search span)` when no such drop exists —
extended to `start + min_intro_seconds` when shorter. -/
theorem heuristic_detect_spec (L : ℚ → ℚ) (sw minI maxI thr : ℚ)
    (times ls : List ℚ) (htimes : times = arangeQ (min sw 300 - 5) 2)
    (hls : ls = times.map L) :
    (HeuristicDetector.detect L sw minI maxI thr = none ↔
      times.length < 2 ∨
      ∀ k, 1 ≤ k → k < times.length → ls.getD k 0 - ls.getD (k - 1) 0 < thr) ∧
    (∀ b, HeuristicDetector.detect L sw minI maxI thr = some b →
      b.confidence = 3/5 ∧ b.method = "heuristic" ∧
      ∃ k, 1 ≤ k ∧ k < times.length ∧
        thr ≤ ls.getD k 0 - ls.getD (k - 1) 0 ∧
        (∀ m, 1 ≤ m → m < k → ls.getD m 0 - ls.getD (m - 1) 0 < thr) ∧
        b.start = times.getD k 0 ∧
        ((∃ j, k < j ∧ j < times.length ∧ thr ≤ ls.getD k 0 - ls.getD j 0 ∧
            (∀ m, k < m → m < j → ls.getD k 0 - ls.getD m 0 < thr) ∧
            b.end_ = if times.getD j 0 + 5 - times.getD k 0 < minI
              then times.getD k 0 + minI else times.getD j 0 + 5) ∨
         ((∀ j, k < j → j < times.length → ls.getD k 0 - ls.getD j 0 < thr) ∧
          b.end_ = if min (times.getD k 0 + maxI) (min sw 300) - times.getD k 0 < minI
            then times.getD k 0 + minI
            else min (times.getD k 0 + maxI) (min sw 300)))) := by
  have hlenmap : ls.length = times.length := by
    rw [hls]
    exact List.length_map _ _
  have hdet : HeuristicDetector.detect L sw minI maxI thr =
      if times.length < 2 then none
      else HeuristicDetector.riseLoop times ls (min sw 300) minI maxI thr 5
        (ls.length - 1) 1 := by
    rw [hls, htimes]
    rfl
  by_cases hlen : times.length < 2
  · refine ⟨⟨fun _ => Or.inl hlen, fun _ => by rw [hdet, if_pos hlen]⟩, ?_⟩
    intro b hb
    rw [hdet, if_pos hlen] at hb
    exact absurd hb (by simp)
  · obtain ⟨hnone, hsome⟩ :=
      riseLoop_spec times ls (min sw 300) minI maxI thr 5 (ls.length - 1) 1
    constructor
    · rw [hdet, if_neg hlen, hnone]
      constructor
      · intro h
        refine Or.inr fun k h1 h2 => h k h1 (by omega)
      · intro h k h1 h2
        rcases h with h | h
        · exact absurd h hlen
        · exact h k h1 (by omega)
    · intro b hb
      rw [hdet, if_neg hlen] at hb
      obtain ⟨k, hk1, hk2, hk3, hk4, hk5⟩ := hsome b hb
      subst hk5
      refine ⟨rfl, rfl, k, hk1, by omega, hk3, hk4, rfl, ?_⟩
      obtain ⟨hdnone, hdsome⟩ :=
        dropLoop_spec times ls (ls.getD k 0) thr 5 (ls.length - (k + 1)) (k + 1)
      rcases hd : HeuristicDetector.dropLoop times ls (ls.getD k 0) thr 5
          (ls.length - (k + 1)) (k + 1) with _ | e
      · refine Or.inr ⟨?_, ?_⟩
        · intro j hj1 hj2
          exact hdnone.1 hd j (by omega) (by omega)
        · show HeuristicDetector.introEndAt times ls (min sw 300) minI maxI thr 5 k = _
          unfold HeuristicDetector.introEndAt
          rw [hd]
      · obtain ⟨j, hj1, hj2, hj3, hj4, hj5⟩ := hdsome e hd
        refine Or.inl ⟨j, by omega, by omega, hj3, ?_, ?_⟩
        · intro m hm1 hm2
          exact hj4 m (by omega) hm2
        · show HeuristicDetector.introEndAt times ls (min sw 300) minI maxI thr 5 k = _
          unfold HeuristicDetector.introEndAt
          rw [hd, hj5]

/-- Closed instance of the heuristic characterization: loudness
`-25, -18, -25` on windows at `0, 2, 4` with threshold `3` detects the
rise at `t = 2`, refines the end by the drop, extends it to the minimum
intro duration (`2 + 15 = 17`), with confidence `3/5` and method
`"heuristic"`. -/
theorem heuristic_detect_spec_witness :
    HeuristicDetector.detect (fun t => if t = 2 then -18 else -25) 11 15 90 3 =
      some ⟨2, 17, 3/5, "heuristic"⟩ ∧
    (⟨2, 17, 3/5, "heuristic"⟩ : IntroBoundaries).confidence = 3/5 ∧
    (⟨2, 17, 3/5, "heuristic"⟩ : IntroBoundaries).method = "heuristic" := by
  have ht : arangeQ (min (11:ℚ) 300 - 5) 2 = [0, 2, 4] := by
    unfold arangeQ
    have h1 : (min (11:ℚ) 300 - 5) / 2 = 3 := by norm_num
    rw [h1]
    have h2 : (⌈(3:ℚ)⌉).toNat = 3 := by
      have h3 : ⌈(3:ℚ)⌉ = 3 := by norm_num
      rw [h3]
      rfl
    rw [h2, List.range_succ, List.range_succ, List.range_succ, List.range_zero]
    norm_num
  have hdet : HeuristicDetector.detect (fun t => if t = 2 then -18 else -25) 11 15 90 3 =
      some ⟨2, 17, 3/5, "heuristic"⟩ := by
    simp only [HeuristicDetector.detect]
    rw [ht]
    norm_num [HeuristicDetector.riseLoop, HeuristicDetector.introEndAt,
      HeuristicDetector.dropLoop]
  have happ := (heuristic_detect_spec (fun t => if t = 2 then -18 else -25) 11 15 90 3
      (arangeQ (min 11 300 - 5) 2)
      ((arangeQ (min 11 300 - 5) 2).map (fun t => if t = 2 then -18 else -25))
      rfl rfl).2 ⟨2, 17, 3/5, "heuristic"⟩ hdet
  exact ⟨hdet, happ.1, happ.2.1⟩

/-! ## Loudness output parsing
(`HeuristicDetector._measure_short_term_loudness`, heuristic.py:78-92)

```
for line in result.stdout.split("\n"):
    if "I:" in line:
        parts = line.split()
        for i, part in enumerate(parts):
            if part == "I:":
                if i + 1 < len(parts):
                    try:
                        return float(parts[i + 1])
                    except ValueError:
                        pass
return -20.0
```

The stdout is modelled as a list of lines, each a list of whitespace
tokens; Python `float(...)` is abstracted as `parse : String → Option ℚ`
(`none` = `ValueError`).  The `"I:" in line` substring guard only skips
lines on which the token scan below finds nothing, so it does not affect
the returned value. -/

namespace HeuristicDetector

/-- Token scan of one line: at each position holding the token `"I:"`
with a following token, try to parse that next token; return the first
success, skipping failures. -/
def scanTokens (parse : String → Option ℚ) : List String → Option ℚ
  | [] => none
  | [_] => none
  | a :: b :: rest =>
    if a = "I:" then
      match parse b with
      | some v => some v
      | none => scanTokens parse (b :: rest)
    else scanTokens parse (b :: rest)

/-- The full output parse of `_measure_short_term_loudness`: first
successfully parsed `I:` value over all lines, with fallback `-20.0`. -/
def parseIntegratedLoudness (parse : String → Option ℚ) : List (List String) → ℚ
  | [] => -20
  | line :: rest =>
    match scanTokens parse line with
    | some v => v
    | none => parseIntegratedLoudness parse rest

end HeuristicDetector

lemma scanTokens_none (parse : String → Option ℚ) :
    ∀ line : List String,
      (∀ i, i + 1 < line.length → line.getD i "" = "I:" →
        parse (line.getD (i + 1) "") = none) →
      HeuristicDetector.scanTokens parse line = none := by
  intro line
  induction line with
  | nil => intro h; rfl
  | cons a rest ih =>
    intro h
    cases rest with
    | nil => rfl
    | cons b rest2 =>
      have h2 : ∀ i, i + 1 < (b :: rest2).length → (b :: rest2).getD i "" = "I:" →
          parse ((b :: rest2).getD (i + 1) "") = none := by
        intro i hi hI
        have := h (i + 1) (by simp only [List.length_cons] at hi ⊢; omega)
          (by rw [List.getD_cons_succ]; exact hI)
        rw [List.getD_cons_succ] at this
        exact this
      simp only [HeuristicDetector.scanTokens]
      by_cases ha : a = "I:"
      · rw [if_pos ha]
        have hb : parse b = none := by
          have := h 0 (by simp only [List.length_cons]; omega)
            (by rw [List.getD_cons_zero]; exact ha)
          rw [List.getD_cons_succ, List.getD_cons_zero] at this
          exact this
        rw [hb]
        exact ih h2
      · rw [if_neg ha]
        exact ih h2

/-- **C10.** The loudness parse of `_measure_short_term_loudness` is a
total function: whenever no parsable float follows any `"I:"` token in
any line of the collaborator output, it returns the constant `-20.0`
(so a parse failure is indistinguishable from a genuine `-20.0` LUFS
reading within the window scan). -/
theorem measure_loudness_fallback (parse : String → Option ℚ)
    (lines : List (List String))
    (h : ∀ line ∈ lines, ∀ i, i + 1 < line.length → line.getD i "" = "I:" →
      parse (line.getD (i + 1) "") = none) :
    HeuristicDetector.parseIntegratedLoudness parse lines = -20 := by
  revert h
  induction lines with
  | nil => intro h; rfl
  | cons line rest ih =>
    intro h
    simp only [HeuristicDetector.parseIntegratedLoudness]
    rw [scanTokens_none parse line (h line (List.mem_cons_self _ _))]
    exact ih fun l hl => h l (List.mem_cons_of_mem _ hl)

/-- Closed instance: ffmpeg output whose `I:` token is followed by an
unparseable string yields the fallback `-20.0`. -/
theorem measure_loudness_fallback_witness :
    HeuristicDetector.parseIntegratedLoudness (fun _ => none)
      [["I:", "abc"], ["size"]] = -20 :=
  measure_loudness_fallback (fun _ => none) [["I:", "abc"], ["size"]]
    (fun _ _ _ _ _ => rfl)

end IntroTamer
